import Mathlib

/-!
Verification development for a toy restricted Hartree-Fock program for H2.

The integral engine (`integrals.py`) and the SCF driver (`run_HF.py main`)
are embedded shallowly: floating-point numbers become real numbers, numpy
arrays become functions/`Matrix`, `np.linalg.eigh` (an external LAPACK
routine) becomes an explicit function parameter `eigh`, and the Python
`for`-loop accumulations become finite sums over the iteration ranges.
`zip` keeps Python's truncating semantics via `List.zip`.
-/

noncomputable section

namespace HF

open scoped Matrix

/-- 3-component real vector (an atom center / basis-function center). -/
abbrev Vec3 := Fin 3 → ℝ

/-- `np.sum((R_A - R_B)**2)`: squared Euclidean distance of two centers. -/
def vec_dist_sq (a b : Vec3) : ℝ := ∑ c, (a c - b c) ^ 2

/-- A contracted Gaussian basis function, as stored in the Python dicts
`{'center': ..., 'exponents': ..., 'coefficients': ...}`. -/
structure BasisFunction where
  center : Vec3
  exponents : List ℝ
  coefficients : List ℝ

/-- An atom, as stored in the Python dicts `{'element': ..., 'coords': ...}`.
The code's atom model carries no nuclear-charge field. -/
structure Atom where
  element : String
  coords : Vec3

/-- Normalisation factor `(2.0 * alpha / np.pi)**(0.75)` of an s-type
primitive Gaussian (appears in `compute_S_primitive`,
`compute_V_nuc_primitive` and `compute_ERI_primitive`). -/
def norm_s (α : ℝ) : ℝ := (2 * α / Real.pi) ^ (0.75 : ℝ)

/-- `math.erf`, the Gauss error function used by the Boys-function
evaluations; modelled by its integral definition. -/
def erf (x : ℝ) : ℝ := 2 / Real.sqrt Real.pi * ∫ t in (0 : ℝ)..x, Real.exp (-t ^ 2)

/-- `integrals.compute_S_primitive`: overlap of two primitive Gaussians. -/
def compute_S_primitive (α β : ℝ) (R_A R_B : Vec3) : ℝ :=
  norm_s α * norm_s β *
    ((Real.pi / (α + β)) ^ ((3 : ℝ) / 2) *
      Real.exp (-(α * β) / (α + β) * vec_dist_sq R_A R_B))

/-- `integrals.compute_T_primitive`: kinetic-energy integral between two
primitive Gaussians, derived from the overlap `S_prim`. -/
def compute_T_primitive (α β : ℝ) (R_A R_B : Vec3) (S_prim : ℝ) : ℝ :=
  (α * β / (α + β)) * (3 - 2 * (α * β / (α + β)) * vec_dist_sq R_A R_B) * S_prim

/-- The Gaussian-product center `P = (alpha * R_A + beta * R_B) / zeta`
computed inside `compute_V_nuc_primitive` and `compute_ERI_primitive`. -/
def gauss_center (α β : ℝ) (R_A R_B : Vec3) : Vec3 :=
  fun c => (α * R_A c + β * R_B c) / (α + β)

/-- `integrals.compute_V_nuc_primitive`: nuclear-attraction integral of two
primitive Gaussians with a single nucleus at `R_nuc`; branches on
`PC_sq < 1e-10` to handle the removable Boys-function singularity. -/
def compute_V_nuc_primitive (α β : ℝ) (R_A R_B R_nuc : Vec3) : ℝ :=
  norm_s α * norm_s β *
    Real.exp (-(α * β) / (α + β) * vec_dist_sq R_A R_B) *
    (if vec_dist_sq (gauss_center α β R_A R_B) R_nuc < 1e-10 then
      2 * Real.pi / (α + β)
    else
      2 * Real.pi / (α + β) *
        (0.5 * Real.sqrt (Real.pi / ((α + β) * vec_dist_sq (gauss_center α β R_A R_B) R_nuc)) *
          erf (Real.sqrt ((α + β) * vec_dist_sq (gauss_center α β R_A R_B) R_nuc))))

/-- The Boys function branch of `compute_ERI_primitive`:
`F0 = 1.0` when `T < 1e-10`, else `0.5*sqrt(pi/T)*erf(sqrt(T))`. -/
def boys_F0 (T : ℝ) : ℝ :=
  if T < 1e-10 then 1 else 0.5 * Real.sqrt (Real.pi / T) * erf (Real.sqrt T)

/-- `integrals.compute_ERI_primitive`: the `(ab|cd)` electron-repulsion
integral of four primitive s-type Gaussians (locals `zeta`, `eta`, `P`,
`Q`, `K_AB`, `K_CD`, `rho`, `T` of the source inlined). -/
def compute_ERI_primitive (α β γ δ : ℝ) (R_A R_B R_C R_D : Vec3) : ℝ :=
  2 * Real.pi ^ (2.5 : ℝ) / ((α + β) * (γ + δ) * Real.sqrt ((α + β) + (γ + δ))) *
    Real.exp (-(α * β) / (α + β) * vec_dist_sq R_A R_B) *
    Real.exp (-(γ * δ) / (γ + δ) * vec_dist_sq R_C R_D) *
    boys_F0 ((α + β) * (γ + δ) / ((α + β) + (γ + δ)) *
      vec_dist_sq (gauss_center α β R_A R_B) (gauss_center γ δ R_C R_D)) *
    norm_s α * norm_s β * norm_s γ * norm_s δ

/-- `zip(basis['exponents'], basis['coefficients'])` — the primitive
(exponent, coefficient) pairs of a basis function; Python's `zip`
truncates to the shorter list, as does `List.zip`. -/
def prim_pairs (b : BasisFunction) : List (ℝ × ℝ) := b.exponents.zip b.coefficients

/-- The contraction loop of `build_S_and_T_matrices` for one `S[i,j]` entry,
over explicit primitive-pair lists. -/
def contract_S_core (psA psB : List (ℝ × ℝ)) (R_A R_B : Vec3) : ℝ :=
  ∑ a : Fin psA.length, ∑ b : Fin psB.length,
    (psA.get a).2 * (psB.get b).2 *
      compute_S_primitive (psA.get a).1 (psB.get b).1 R_A R_B

/-- The contraction loop of `build_S_and_T_matrices` for one `T[i,j]` entry
(the source computes `S_prim` first and feeds it to `compute_T_primitive`). -/
def contract_T_core (psA psB : List (ℝ × ℝ)) (R_A R_B : Vec3) : ℝ :=
  ∑ a : Fin psA.length, ∑ b : Fin psB.length,
    (psA.get a).2 * (psB.get b).2 *
      compute_T_primitive (psA.get a).1 (psB.get b).1 R_A R_B
        (compute_S_primitive (psA.get a).1 (psB.get b).1 R_A R_B)

/-- `integrals.build_S_and_T_matrices`: the overlap and kinetic matrices. -/
def build_S_and_T_matrices (bfs : List BasisFunction) :
    Matrix (Fin bfs.length) (Fin bfs.length) ℝ ×
      Matrix (Fin bfs.length) (Fin bfs.length) ℝ :=
  (Matrix.of fun i j =>
      contract_S_core (prim_pairs (bfs.get i)) (prim_pairs (bfs.get j))
        (bfs.get i).center (bfs.get j).center,
   Matrix.of fun i j =>
      contract_T_core (prim_pairs (bfs.get i)) (prim_pairs (bfs.get j))
        (bfs.get i).center (bfs.get j).center)

/-- The inner primitive contraction of `build_V_nuc_matrix` for one
basis-function pair and one nucleus, including the hardcoded `-Z` factor
with `Z = 1.0` (`# Hydrogen ONLY` in the source). -/
def contract_V_core (psA psB : List (ℝ × ℝ)) (R_A R_B R_nuc : Vec3) : ℝ :=
  ∑ a : Fin psA.length, ∑ b : Fin psB.length,
    -(1 : ℝ) * (psA.get a).2 * (psB.get b).2 *
      compute_V_nuc_primitive (psA.get a).1 (psB.get b).1 R_A R_B R_nuc

/-- `integrals.build_V_nuc_matrix`: nuclear-attraction matrix; outer sum over
the atoms, inner double sum over primitive pairs. -/
def build_V_nuc_matrix (bfs : List BasisFunction) (atoms : List Atom) :
    Matrix (Fin bfs.length) (Fin bfs.length) ℝ :=
  Matrix.of fun i j =>
    ∑ k : Fin atoms.length,
      contract_V_core (prim_pairs (bfs.get i)) (prim_pairs (bfs.get j))
        (bfs.get i).center (bfs.get j).center (atoms.get k).coords

/-- The per-nucleus contracted attraction integral
`sum_prims coeff_A * coeff_B * V_prim` (the `contracted_integral` of the
spec's `build_nuclear_attraction` description), without any charge factor. -/
def contracted_attraction (bi bj : BasisFunction) (R_nuc : Vec3) : ℝ :=
  ∑ a : Fin (prim_pairs bi).length, ∑ b : Fin (prim_pairs bj).length,
    ((prim_pairs bi).get a).2 * ((prim_pairs bj).get b).2 *
      compute_V_nuc_primitive ((prim_pairs bi).get a).1 ((prim_pairs bj).get b).1
        bi.center bj.center R_nuc

/-- The quadruple primitive contraction of `build_ERI_tensor` for one
`ERI[i,j,k,l]` entry, over explicit primitive-pair lists. -/
def contract_ERI_core (psA psB psC psD : List (ℝ × ℝ)) (R_A R_B R_C R_D : Vec3) : ℝ :=
  ∑ a : Fin psA.length, ∑ b : Fin psB.length, ∑ c : Fin psC.length, ∑ d : Fin psD.length,
    (psA.get a).2 * (psB.get b).2 * (psC.get c).2 * (psD.get d).2 *
      compute_ERI_primitive (psA.get a).1 (psB.get b).1 (psC.get c).1 (psD.get d).1
        R_A R_B R_C R_D

/-- `integrals.build_ERI_tensor`: the 4-index electron-repulsion tensor,
`ERI[i,j,k,l] = (ij|kl)` in chemist's notation. -/
def build_ERI_tensor (bfs : List BasisFunction) :
    Fin bfs.length → Fin bfs.length → Fin bfs.length → Fin bfs.length → ℝ :=
  fun i j k l =>
    contract_ERI_core (prim_pairs (bfs.get i)) (prim_pairs (bfs.get j))
      (prim_pairs (bfs.get k)) (prim_pairs (bfs.get l))
      (bfs.get i).center (bfs.get j).center (bfs.get k).center (bfs.get l).center

/-- `integrals.build_G_matrix`: the two-electron part of the Fock matrix,
`G[mu,nu] = sum_{lam,sig} D[lam,sig] * (ERI[mu,nu,lam,sig] - 0.5*ERI[mu,lam,nu,sig])`. -/
def build_G_matrix {n : ℕ} (D : Matrix (Fin n) (Fin n) ℝ)
    (ERIs : Fin n → Fin n → Fin n → Fin n → ℝ) : Matrix (Fin n) (Fin n) ℝ :=
  Matrix.of fun mu nu =>
    ∑ lam, ∑ sig, D lam sig * (ERIs mu nu lam sig - 0.5 * ERIs mu lam nu sig)

/-- The inputs of the SCF loop of `run_HF.main` (lines 115-183): the matrices
and the ERI tensor built before the loop, the nuclear repulsion energy, the
electron count (`len(atoms)` in the source), the hardcoded loop controls
(`max_iter = 50`, `epsilon_tol = 1e-6` in the source, carried here as fields),
and the external eigensolver `np.linalg.eigh`, modelled as a function
returning (eigenvalues, eigenvector matrix). -/
structure SCFParams (n : ℕ) where
  S : Matrix (Fin n) (Fin n) ℝ
  T : Matrix (Fin n) (Fin n) ℝ
  V : Matrix (Fin n) (Fin n) ℝ
  ERIs : Fin n → Fin n → Fin n → Fin n → ℝ
  E_nuc : ℝ
  num_electrons : ℕ
  max_iter : ℕ
  tol : ℝ
  eigh : Matrix (Fin n) (Fin n) ℝ → (Fin n → ℝ) × Matrix (Fin n) (Fin n) ℝ

/-- The orthogonalisation-matrix build of `run_HF.main` lines 133-135:
`s_eigvals, s_eigvecs = np.linalg.eigh(S); X = s_eigvecs @ np.diag(s_eigvals**-0.5) @ s_eigvecs.T`.
The source performs no check on the eigenvalues. -/
def orthogonalization_X {n : ℕ}
    (eigh : Matrix (Fin n) (Fin n) ℝ → (Fin n → ℝ) × Matrix (Fin n) (Fin n) ℝ)
    (S : Matrix (Fin n) (Fin n) ℝ) : Matrix (Fin n) (Fin n) ℝ :=
  (eigh S).2 * Matrix.diagonal (fun i => (eigh S).1 i ^ (-(0.5) : ℝ)) * (eigh S).2ᵀ

/-- The density update `D_new = 2 * C[:, :num_occ] @ C[:, :num_occ].T` of
`run_HF.main` line 160: `D_new[mu,nu] = 2 * sum_{i < num_occ} C[mu,i]*C[nu,i]`
(the numpy slice truncates at `n` when `num_occ > n`, as does the filter). -/
def density_matrix {n : ℕ} (C : Matrix (Fin n) (Fin n) ℝ) (num_occ : ℕ) :
    Matrix (Fin n) (Fin n) ℝ :=
  Matrix.of fun mu nu =>
    2 * ∑ i ∈ Finset.univ.filter (fun i : Fin n => (i : ℕ) < num_occ), C mu i * C nu i

/-- The values computed by one body of the SCF `for` loop of `run_HF.main`
(lines 124-170): `G`, `F`, the orbital energies `epsilon`, the coefficient
matrix `C`, the updated density `D_new` and the total energy `E_total`. -/
structure StepOut (n : ℕ) where
  G : Matrix (Fin n) (Fin n) ℝ
  F : Matrix (Fin n) (Fin n) ℝ
  epsilon : Fin n → ℝ
  C : Matrix (Fin n) (Fin n) ℝ
  D_new : Matrix (Fin n) (Fin n) ℝ
  E_total : ℝ

/-- One iteration body of the SCF loop of `run_HF.main` (lines 124-165):
Fock build, orthogonalisation, transform, eigensolve, density update, energy.
`num_occ = num_electrons // 2` is Python floor division; the odd-electron
check of lines 154-157 only writes a log message and does not alter control
flow, so it contributes nothing to the state. -/
def scf_step {n : ℕ} (p : SCFParams n) (D : Matrix (Fin n) (Fin n) ℝ) : StepOut n :=
  let G := build_G_matrix D p.ERIs
  let F := p.T + p.V + G
  let X := orthogonalization_X p.eigh p.S
  let F2 := Xᵀ * F * X
  let ec := p.eigh F2
  let C := X * ec.2
  let num_occ := p.num_electrons / 2
  let D_new := density_matrix C num_occ
  let E_elec := 0.5 * Matrix.trace (D_new * (p.T + p.V + F))
  ⟨G, F, ec.1, C, D_new, E_elec + p.E_nuc⟩

/-- The state of `run_HF.main` after the SCF loop: the `converged` flag, the
last computed total energy and orbital energies, `iteration + 1`, the energy
history, and the final value of the local `D_new` (the last computed density,
which the function's returned dict does not include). -/
structure LoopOut (n : ℕ) where
  converged : Bool
  E_total : ℝ
  iterations : ℕ
  epsilon : Fin n → ℝ
  history : List ℝ
  D_last : Matrix (Fin n) (Fin n) ℝ

/-- The SCF `for` loop of `run_HF.main` (lines 124-182), by recursion on the
remaining iteration budget. `iter` counts completed iterations; `Eold` is the
`E_old` accumulator; `le`, `lE`, `lD` carry the last computed `epsilon`,
`E_total` and `D_new` so the post-loop reads (lines 187-188) are defined.
On `delta_E < epsilon_tol` the loop breaks with `converged = True`; otherwise
it updates `E_old` and `D` and continues. -/
def scf_go {n : ℕ} (p : SCFParams n) :
    ℕ → ℕ → Matrix (Fin n) (Fin n) ℝ → ℝ → List ℝ → (Fin n → ℝ) → ℝ →
      Matrix (Fin n) (Fin n) ℝ → LoopOut n
  | 0, iter, _D, _Eold, hist, le, lE, lD => ⟨false, lE, iter, le, hist, lD⟩
  | fuel + 1, iter, D, Eold, hist, _le, _lE, _lD =>
    let st := scf_step p D
    if |st.E_total - Eold| < p.tol then
      ⟨true, st.E_total, iter + 1, st.epsilon, hist ++ [st.E_total], st.D_new⟩
    else
      scf_go p fuel (iter + 1) st.D_new st.E_total (hist ++ [st.E_total])
        st.epsilon st.E_total st.D_new

/-- The whole SCF phase of `run_HF.main`: initial density `D = np.zeros`
(line 78), `E_old = 0.0` (line 119), empty energy history, then the loop. -/
def run_scf {n : ℕ} (p : SCFParams n) : LoopOut n :=
  scf_go p p.max_iter 0 0 0 [] (fun _ => 0) 0 0

/-- The dict returned by `run_HF.main` (lines 194-202): `converged`,
`energy`, `iterations`, `epsilon`, `S_matrix`, `energy_history`. The `log`
string (captured logging output) is out of scope. There is no density
field. -/
structure RunResult (n : ℕ) where
  converged : Bool
  energy : ℝ
  iterations : ℕ
  epsilon : Fin n → ℝ
  S_matrix : Matrix (Fin n) (Fin n) ℝ
  energy_history : List ℝ

/-- `run_HF.main`'s return value, as a function of the SCF inputs. -/
def main_result {n : ℕ} (p : SCFParams n) : RunResult n :=
  let out := run_scf p
  ⟨out.converged, out.E_total, out.iterations, out.epsilon, p.S, out.history⟩

/-- The pure density iteration: `D_from p D k` is the density after `k`
unconditional SCF steps starting from `D`. -/
def D_from {n : ℕ} (p : SCFParams n) (D : Matrix (Fin n) (Fin n) ℝ) : ℕ → Matrix (Fin n) (Fin n) ℝ
  | 0 => D
  | k + 1 => (scf_step p (D_from p D k)).D_new

/-- The total energy computed in iteration `k` (0-based) of an SCF run
starting from density `D`. -/
def E_from {n : ℕ} (p : SCFParams n) (D : Matrix (Fin n) (Fin n) ℝ) (k : ℕ) : ℝ :=
  (scf_step p (D_from p D k)).E_total

/-- The orbital energies computed in iteration `k` (0-based) of an SCF run
starting from density `D`. -/
def eps_from {n : ℕ} (p : SCFParams n) (D : Matrix (Fin n) (Fin n) ℝ) (k : ℕ) : Fin n → ℝ :=
  (scf_step p (D_from p D k)).epsilon

/-- Modelled from the spec: `LinearDependenceError` — "overlap matrix has a
near-zero eigenvalue; orthogonalization undefined". The source defines no
such exception (nor any other exception class). -/
inductive LinearDependenceError where
  | overlapNearSingular

/-- Modelled from the spec: `Orthogonalizer.from_overlap` — eigendecompose S,
"require every `s_i` above a small positive threshold — otherwise ...
`LinearDependenceError`", then build the Löwdin transform. This is the spec's
description; the source (run_HF.py lines 133-135) has no such check. -/
def from_overlap_spec {n : ℕ} (threshold : ℝ)
    (eigh : Matrix (Fin n) (Fin n) ℝ → (Fin n → ℝ) × Matrix (Fin n) (Fin n) ℝ)
    (S : Matrix (Fin n) (Fin n) ℝ) :
    Except LinearDependenceError (Matrix (Fin n) (Fin n) ℝ) :=
  if ∀ i, threshold < (eigh S).1 i then Except.ok (orthogonalization_X eigh S)
  else Except.error LinearDependenceError.overlapNearSingular

/-- Modelled from the spec: the spec's `Atom` data model carries a positive
`nuclear_charge` per atom; the source's atom dicts carry none (`Z = 1.0  #
Hydrogen ONLY`), so the charge is recovered from the element symbol here —
hydrogen 1, helium 2 — enough for the atoms appearing in these theorems. -/
def nuclear_charge (a : Atom) : ℝ :=
  if a.element = "H" then 1 else if a.element = "He" then 2 else 0

/-- The origin, used as a concrete center. -/
def zero3 : Vec3 := fun _ => 0

/-- A concrete well-formed basis function: one primitive, exponent 1,
coefficient 1, centered at the origin. -/
def bf1 : BasisFunction := ⟨zero3, [1], [1]⟩

/-- A concrete malformed basis function: two exponents but only one
coefficient (mismatched lengths). -/
def bfX : BasisFunction := ⟨zero3, [1, 2], [1]⟩

/-- A concrete hydrogen atom at the origin. -/
def atomH : Atom := ⟨"H", zero3⟩

/-- A concrete helium atom at the origin (nuclear charge 2). -/
def atomHe : Atom := ⟨"He", zero3⟩

/-- A concrete eigensolver stand-in whose eigenvalues are all zero and whose
eigenvector matrix is the identity (what matters to the claims below is only
how the code consumes its output). -/
def eigh_zero (n : ℕ) :
    Matrix (Fin n) (Fin n) ℝ → (Fin n → ℝ) × Matrix (Fin n) (Fin n) ℝ :=
  fun _ => (fun _ => 0, 1)

/-- A concrete eigensolver stand-in whose eigenvalues are all one and whose
eigenvector matrix is the identity. -/
def eigh_one (n : ℕ) :
    Matrix (Fin n) (Fin n) ℝ → (Fin n → ℝ) × Matrix (Fin n) (Fin n) ℝ :=
  fun _ => (fun _ => 1, 1)

/-- The 2×2 column-swap matrix. -/
def swap2 : Matrix (Fin 2) (Fin 2) ℝ := Matrix.of ![![0, 1], ![1, 0]]

open Classical in
/-- A concrete eigensolver stand-in for a 2-basis run: on the overlap matrix
(the identity) it returns unit eigenvalues and identity eigenvectors; on any
other input it returns zero eigenvalues and identity eigenvectors. -/
def eigh_resA : Matrix (Fin 2) (Fin 2) ℝ → (Fin 2 → ℝ) × Matrix (Fin 2) (Fin 2) ℝ :=
  fun M => if M = 1 then (fun _ => 1, 1) else (fun _ => 0, 1)

open Classical in
/-- Like `eigh_resA` but returning the column-swapped eigenvector matrix on
inputs other than the identity — the same eigenvalues, a different (equally
valid for the zero Fock matrix) eigenvector ordering. -/
def eigh_resB : Matrix (Fin 2) (Fin 2) ℝ → (Fin 2 → ℝ) × Matrix (Fin 2) (Fin 2) ℝ :=
  fun M => if M = 1 then (fun _ => 1, 1) else (fun _ => 0, swap2)

/-- A concrete SCF input with one basis function and an odd electron count
(`num_electrons = 1`, e.g. a single hydrogen atom): zero one-electron
matrices and ERIs, identity overlap, the source's `max_iter = 50` and
`epsilon_tol = 1e-6`. -/
def p_odd : SCFParams 1 :=
  ⟨1, 0, 0, fun _ _ _ _ => 0, 0, 1, 50, 1e-6, eigh_zero 1⟩

/-- A concrete non-converging SCF input (2 basis functions, 2 electrons,
zero matrices, `tol = 0` so `delta_E < tol` never holds, one iteration),
eigensolver `eigh_resA`. -/
def p_resA : SCFParams 2 :=
  ⟨1, 0, 0, fun _ _ _ _ => 0, 0, 2, 1, 0, eigh_resA⟩

/-- Same run as `p_resA` but with eigensolver `eigh_resB`. -/
def p_resB : SCFParams 2 :=
  ⟨1, 0, 0, fun _ _ _ _ => 0, 0, 2, 1, 0, eigh_resB⟩

/-- A concrete degenerate SCF input on an empty basis whose first-iteration
total energy is 0 (below `tol = 1e-6`). -/
def p_conv : SCFParams 0 :=
  ⟨0, 0, 0, fun _ _ _ _ => 0, 0, 0, 50, 1e-6, fun _ => (0, 0)⟩

/-- A concrete SCF input on an empty basis with `E_nuc = 1` and a single
iteration: `delta_E = 1` on the first iteration, so the run does not
converge. -/
def p_nc : SCFParams 0 :=
  ⟨0, 0, 0, fun _ _ _ _ => 0, 1, 0, 1, 1e-6, fun _ => (0, 0)⟩

lemma vec_dist_sq_comm (a b : Vec3) : vec_dist_sq a b = vec_dist_sq b a := by
  unfold vec_dist_sq
  exact Finset.sum_congr rfl fun c _ => by ring

lemma vec_dist_sq_self (a : Vec3) : vec_dist_sq a a = 0 := by
  simp [vec_dist_sq]

lemma gauss_center_comm (α β : ℝ) (R_A R_B : Vec3) :
    gauss_center α β R_A R_B = gauss_center β α R_B R_A := by
  funext c
  unfold gauss_center
  ring

lemma compute_S_primitive_comm (α β : ℝ) (R_A R_B : Vec3) :
    compute_S_primitive α β R_A R_B = compute_S_primitive β α R_B R_A := by
  unfold compute_S_primitive
  rw [vec_dist_sq_comm R_A R_B, mul_comm α β, add_comm α β]
  ring

lemma compute_T_primitive_comm (α β : ℝ) (R_A R_B : Vec3) (s : ℝ) :
    compute_T_primitive α β R_A R_B s = compute_T_primitive β α R_B R_A s := by
  unfold compute_T_primitive
  rw [vec_dist_sq_comm R_A R_B, mul_comm α β, add_comm α β]

lemma compute_V_nuc_primitive_comm (α β : ℝ) (R_A R_B R_nuc : Vec3) :
    compute_V_nuc_primitive α β R_A R_B R_nuc = compute_V_nuc_primitive β α R_B R_A R_nuc := by
  unfold compute_V_nuc_primitive
  rw [vec_dist_sq_comm R_A R_B, gauss_center_comm α β R_A R_B, mul_comm α β, add_comm α β]
  ring

lemma ERI_prim_swap12 (α β γ δ : ℝ) (R_A R_B R_C R_D : Vec3) :
    compute_ERI_primitive α β γ δ R_A R_B R_C R_D =
      compute_ERI_primitive β α γ δ R_B R_A R_C R_D := by
  unfold compute_ERI_primitive
  rw [vec_dist_sq_comm R_A R_B, gauss_center_comm α β R_A R_B, mul_comm α β, add_comm α β]
  ring

lemma ERI_prim_swap34 (α β γ δ : ℝ) (R_A R_B R_C R_D : Vec3) :
    compute_ERI_primitive α β γ δ R_A R_B R_C R_D =
      compute_ERI_primitive α β δ γ R_A R_B R_D R_C := by
  unfold compute_ERI_primitive
  rw [vec_dist_sq_comm R_C R_D, gauss_center_comm γ δ R_C R_D, mul_comm γ δ, add_comm γ δ]
  ring

lemma ERI_prim_swap_pairs (α β γ δ : ℝ) (R_A R_B R_C R_D : Vec3) :
    compute_ERI_primitive α β γ δ R_A R_B R_C R_D =
      compute_ERI_primitive γ δ α β R_C R_D R_A R_B := by
  unfold compute_ERI_primitive
  rw [vec_dist_sq_comm (gauss_center α β R_A R_B) (gauss_center γ δ R_C R_D),
    add_comm (α + β) (γ + δ), mul_comm (α + β) (γ + δ)]
  ring

lemma compute_S_primitive_self {α : ℝ} (h : 0 < α) (R_A : Vec3) :
    compute_S_primitive α α R_A R_A = 1 := by
  unfold compute_S_primitive norm_s
  rw [vec_dist_sq_self, mul_zero, Real.exp_zero, mul_one]
  have hx : (0 : ℝ) < 2 * α / Real.pi := by positivity
  rw [← Real.rpow_add hx]
  have h34 : (0.75 : ℝ) + 0.75 = 3 / 2 := by norm_num
  have h2a : α + α = 2 * α := by ring
  rw [h34, h2a, ← Real.mul_rpow (le_of_lt hx) (by positivity)]
  have hone : 2 * α / Real.pi * (Real.pi / (2 * α)) = 1 := by
    have hπ : Real.pi ≠ 0 := Real.pi_ne_zero
    have hα : α ≠ 0 := ne_of_gt h
    field_simp
  rw [hone, Real.one_rpow]

lemma sum4_swap_pairs {A B C D : Type} [Fintype A] [Fintype B] [Fintype C] [Fintype D]
    (f : A → B → C → D → ℝ) :
    (∑ a, ∑ b, ∑ c, ∑ d, f a b c d) = ∑ c, ∑ d, ∑ a, ∑ b, f a b c d :=
  calc
    (∑ a, ∑ b, ∑ c, ∑ d, f a b c d)
        = ∑ a, ∑ c, ∑ b, ∑ d, f a b c d :=
          Finset.sum_congr rfl fun _ _ => Finset.sum_comm
    _ = ∑ c, ∑ a, ∑ b, ∑ d, f a b c d := Finset.sum_comm
    _ = ∑ c, ∑ a, ∑ d, ∑ b, f a b c d :=
          Finset.sum_congr rfl fun _ _ =>
            Finset.sum_congr rfl fun _ _ => Finset.sum_comm
    _ = ∑ c, ∑ d, ∑ a, ∑ b, f a b c d :=
          Finset.sum_congr rfl fun _ _ => Finset.sum_comm

lemma contract_ERI_core_swap12 (psA psB psC psD : List (ℝ × ℝ)) (R_A R_B R_C R_D : Vec3) :
    contract_ERI_core psA psB psC psD R_A R_B R_C R_D =
      contract_ERI_core psB psA psC psD R_B R_A R_C R_D := by
  unfold contract_ERI_core
  rw [Finset.sum_comm]
  refine Finset.sum_congr rfl fun b _ => Finset.sum_congr rfl fun a _ =>
    Finset.sum_congr rfl fun c _ => Finset.sum_congr rfl fun d _ => ?_
  rw [ERI_prim_swap12]
  ring

lemma contract_ERI_core_swap34 (psA psB psC psD : List (ℝ × ℝ)) (R_A R_B R_C R_D : Vec3) :
    contract_ERI_core psA psB psC psD R_A R_B R_C R_D =
      contract_ERI_core psA psB psD psC R_A R_B R_D R_C := by
  unfold contract_ERI_core
  refine Finset.sum_congr rfl fun a _ => Finset.sum_congr rfl fun b _ => ?_
  rw [Finset.sum_comm]
  refine Finset.sum_congr rfl fun d _ => Finset.sum_congr rfl fun c _ => ?_
  rw [ERI_prim_swap34]
  ring

lemma contract_ERI_core_swap_pairs (psA psB psC psD : List (ℝ × ℝ)) (R_A R_B R_C R_D : Vec3) :
    contract_ERI_core psA psB psC psD R_A R_B R_C R_D =
      contract_ERI_core psC psD psA psB R_C R_D R_A R_B := by
  unfold contract_ERI_core
  rw [sum4_swap_pairs]
  refine Finset.sum_congr rfl fun c _ => Finset.sum_congr rfl fun d _ =>
    Finset.sum_congr rfl fun a _ => Finset.sum_congr rfl fun b _ => ?_
  rw [ERI_prim_swap_pairs]
  ring

lemma eri_tensor_swap12 (bfs : List BasisFunction) (i j k l : Fin bfs.length) :
    build_ERI_tensor bfs i j k l = build_ERI_tensor bfs j i k l :=
  contract_ERI_core_swap12 _ _ _ _ _ _ _ _

lemma eri_tensor_swap34 (bfs : List BasisFunction) (i j k l : Fin bfs.length) :
    build_ERI_tensor bfs i j k l = build_ERI_tensor bfs i j l k :=
  contract_ERI_core_swap34 _ _ _ _ _ _ _ _

lemma eri_tensor_swap_pairs (bfs : List BasisFunction) (i j k l : Fin bfs.length) :
    build_ERI_tensor bfs i j k l = build_ERI_tensor bfs k l i j :=
  contract_ERI_core_swap_pairs _ _ _ _ _ _ _ _

lemma contract_S_core_comm (psA psB : List (ℝ × ℝ)) (R_A R_B : Vec3) :
    contract_S_core psA psB R_A R_B = contract_S_core psB psA R_B R_A := by
  unfold contract_S_core
  rw [Finset.sum_comm]
  refine Finset.sum_congr rfl fun b _ => Finset.sum_congr rfl fun a _ => ?_
  rw [compute_S_primitive_comm]
  ring

lemma contract_T_core_comm (psA psB : List (ℝ × ℝ)) (R_A R_B : Vec3) :
    contract_T_core psA psB R_A R_B = contract_T_core psB psA R_B R_A := by
  unfold contract_T_core
  rw [Finset.sum_comm]
  refine Finset.sum_congr rfl fun b _ => Finset.sum_congr rfl fun a _ => ?_
  rw [compute_T_primitive_comm, compute_S_primitive_comm]
  ring

lemma contract_V_core_comm (psA psB : List (ℝ × ℝ)) (R_A R_B R_nuc : Vec3) :
    contract_V_core psA psB R_A R_B R_nuc = contract_V_core psB psA R_B R_A R_nuc := by
  unfold contract_V_core
  rw [Finset.sum_comm]
  refine Finset.sum_congr rfl fun b _ => Finset.sum_congr rfl fun a _ => ?_
  rw [compute_V_nuc_primitive_comm]
  ring

lemma build_S_symm (bfs : List BasisFunction) (i j : Fin bfs.length) :
    (build_S_and_T_matrices bfs).1 i j = (build_S_and_T_matrices bfs).1 j i :=
  contract_S_core_comm _ _ _ _

lemma build_T_symm (bfs : List BasisFunction) (i j : Fin bfs.length) :
    (build_S_and_T_matrices bfs).2 i j = (build_S_and_T_matrices bfs).2 j i :=
  contract_T_core_comm _ _ _ _

lemma build_V_symm (bfs : List BasisFunction) (atoms : List Atom) (i j : Fin bfs.length) :
    build_V_nuc_matrix bfs atoms i j = build_V_nuc_matrix bfs atoms j i := by
  unfold build_V_nuc_matrix
  rw [Matrix.of_apply, Matrix.of_apply]
  exact Finset.sum_congr rfl fun _ _ => contract_V_core_comm _ _ _ _ _

lemma build_G_symm (bfs : List BasisFunction)
    (D : Matrix (Fin bfs.length) (Fin bfs.length) ℝ)
    (hD : ∀ i j, D i j = D j i) (mu nu : Fin bfs.length) :
    build_G_matrix D (build_ERI_tensor bfs) mu nu =
      build_G_matrix D (build_ERI_tensor bfs) nu mu := by
  have expand : ∀ mu2 nu2 : Fin bfs.length,
      build_G_matrix D (build_ERI_tensor bfs) mu2 nu2 =
        (∑ lam, ∑ sig, D lam sig * build_ERI_tensor bfs mu2 nu2 lam sig) -
          ∑ lam, ∑ sig, D lam sig * (0.5 * build_ERI_tensor bfs mu2 lam nu2 sig) := by
    intro mu2 nu2
    unfold build_G_matrix
    rw [Matrix.of_apply, ← Finset.sum_sub_distrib]
    refine Finset.sum_congr rfl fun lam _ => ?_
    rw [← Finset.sum_sub_distrib]
    exact Finset.sum_congr rfl fun sig _ => by ring
  rw [expand, expand]
  have hJ : (∑ lam, ∑ sig, D lam sig * build_ERI_tensor bfs mu nu lam sig) =
      ∑ lam, ∑ sig, D lam sig * build_ERI_tensor bfs nu mu lam sig :=
    Finset.sum_congr rfl fun lam _ => Finset.sum_congr rfl fun sig _ => by
      rw [eri_tensor_swap12]
  have hK : (∑ lam, ∑ sig, D lam sig * (0.5 * build_ERI_tensor bfs nu lam mu sig)) =
      ∑ lam, ∑ sig, D lam sig * (0.5 * build_ERI_tensor bfs mu lam nu sig) :=
    calc
      (∑ lam, ∑ sig, D lam sig * (0.5 * build_ERI_tensor bfs nu lam mu sig))
          = ∑ lam, ∑ sig, D lam sig * (0.5 * build_ERI_tensor bfs mu sig nu lam) :=
            Finset.sum_congr rfl fun lam _ => Finset.sum_congr rfl fun sig _ => by
              rw [eri_tensor_swap_pairs bfs nu lam mu sig]
      _ = ∑ sig, ∑ lam, D lam sig * (0.5 * build_ERI_tensor bfs mu sig nu lam) :=
            Finset.sum_comm
      _ = ∑ lam, ∑ sig, D lam sig * (0.5 * build_ERI_tensor bfs mu lam nu sig) :=
            Finset.sum_congr rfl fun lam _ => Finset.sum_congr rfl fun sig _ => by
              rw [hD lam sig]
  rw [hJ, hK]

lemma density_matrix_symm {n : ℕ} (C : Matrix (Fin n) (Fin n) ℝ) (num_occ : ℕ)
    (mu nu : Fin n) :
    density_matrix C num_occ mu nu = density_matrix C num_occ nu mu := by
  unfold density_matrix
  rw [Matrix.of_apply, Matrix.of_apply]
  congr 1
  exact Finset.sum_congr rfl fun i _ => mul_comm _ _

lemma zip_append_of_le {α β : Type} (xs ys : List α) (zs : List β)
    (h : zs.length ≤ xs.length) : (xs ++ ys).zip zs = xs.zip zs := by
  induction zs generalizing xs with
  | nil => simp
  | cons z zs ih =>
    cases xs with
    | nil => simp at h
    | cons x xs =>
      simp only [List.cons_append, List.zip_cons_cons]
      rw [ih xs (by simpa using h)]

lemma D_from_shift {n : ℕ} (p : SCFParams n) (D : Matrix (Fin n) (Fin n) ℝ) (k : ℕ) :
    D_from p ((scf_step p D).D_new) k = D_from p D (k + 1) := by
  induction k with
  | zero => rfl
  | succ k ih => simp only [D_from, ih]

lemma E_from_shift {n : ℕ} (p : SCFParams n) (D : Matrix (Fin n) (Fin n) ℝ) (k : ℕ) :
    E_from p ((scf_step p D).D_new) k = E_from p D (k + 1) := by
  unfold E_from
  rw [D_from_shift]

lemma eps_from_shift {n : ℕ} (p : SCFParams n) (D : Matrix (Fin n) (Fin n) ℝ) (k : ℕ) :
    eps_from p ((scf_step p D).D_new) k = eps_from p D (k + 1) := by
  unfold eps_from
  rw [D_from_shift]

lemma scf_go_zero {n : ℕ} (p : SCFParams n) (iter : ℕ) (D : Matrix (Fin n) (Fin n) ℝ)
    (Eold : ℝ) (hist : List ℝ) (le : Fin n → ℝ) (lE : ℝ)
    (lD : Matrix (Fin n) (Fin n) ℝ) :
    scf_go p 0 iter D Eold hist le lE lD = ⟨false, lE, iter, le, hist, lD⟩ := rfl

lemma scf_go_succ {n : ℕ} (p : SCFParams n) (fuel iter : ℕ)
    (D : Matrix (Fin n) (Fin n) ℝ) (Eold : ℝ) (hist : List ℝ) (le : Fin n → ℝ)
    (lE : ℝ) (lD : Matrix (Fin n) (Fin n) ℝ) :
    scf_go p (fuel + 1) iter D Eold hist le lE lD =
      if |(scf_step p D).E_total - Eold| < p.tol then
        ⟨true, (scf_step p D).E_total, iter + 1, (scf_step p D).epsilon,
          hist ++ [(scf_step p D).E_total], (scf_step p D).D_new⟩
      else
        scf_go p fuel (iter + 1) (scf_step p D).D_new (scf_step p D).E_total
          (hist ++ [(scf_step p D).E_total]) (scf_step p D).epsilon
          (scf_step p D).E_total (scf_step p D).D_new := rfl

lemma scf_go_not_converged {n : ℕ} (p : SCFParams n) :
    ∀ fuel : ℕ, 0 < fuel → ∀ (iter : ℕ) (D : Matrix (Fin n) (Fin n) ℝ) (Eold : ℝ)
      (hist : List ℝ) (le : Fin n → ℝ) (lE : ℝ) (lD : Matrix (Fin n) (Fin n) ℝ),
      (scf_go p fuel iter D Eold hist le lE lD).converged = false →
      scf_go p fuel iter D Eold hist le lE lD =
        ⟨false, E_from p D (fuel - 1), iter + fuel, eps_from p D (fuel - 1),
          hist ++ (List.range fuel).map (E_from p D), D_from p D fuel⟩ := by
  intro fuel
  induction fuel with
  | zero => exact fun h => absurd h (lt_irrefl 0)
  | succ f ih =>
    intro _ iter D Eold hist le lE lD hconv
    rw [scf_go_succ] at hconv ⊢
    by_cases hc : |(scf_step p D).E_total - Eold| < p.tol
    · rw [if_pos hc] at hconv
      simp at hconv
    · rw [if_neg hc] at hconv ⊢
      cases f with
      | zero =>
        rw [scf_go_zero]
        have hr1 : List.range 1 = [0] := rfl
        rw [hr1, List.map_cons, List.map_nil]
        rfl
      | succ f2 =>
        have h2 := ih (Nat.succ_pos f2) (iter + 1) (scf_step p D).D_new
          (scf_step p D).E_total (hist ++ [(scf_step p D).E_total])
          (scf_step p D).epsilon (scf_step p D).E_total (scf_step p D).D_new hconv
        rw [h2]
        have hiter : iter + 1 + (f2 + 1) = iter + (f2 + 1 + 1) := by omega
        have hhist : (hist ++ [(scf_step p D).E_total]) ++
              (List.range (f2 + 1)).map (E_from p (scf_step p D).D_new) =
            hist ++ (List.range (f2 + 1 + 1)).map (E_from p D) := by
          rw [List.append_assoc, List.singleton_append]
          congr 1
          have htail : (List.range (f2 + 1)).map (E_from p (scf_step p D).D_new) =
              (List.range (f2 + 1)).map (E_from p D ∘ Nat.succ) :=
            List.map_congr_left fun k _ => E_from_shift p D k
          rw [List.range_succ_eq_map (f2 + 1), List.map_cons, List.map_map, htail]
          rfl
        simp only [Nat.add_sub_cancel]
        rw [E_from_shift p D f2, eps_from_shift p D f2, D_from_shift p D (f2 + 1),
          hiter, hhist]

lemma build_G_zero {n : ℕ} (ERIs : Fin n → Fin n → Fin n → Fin n → ℝ) :
    build_G_matrix (0 : Matrix (Fin n) (Fin n) ℝ) ERIs = 0 := by
  ext mu nu
  simp [build_G_matrix]

lemma density_matrix_zero_occ {n : ℕ} (C : Matrix (Fin n) (Fin n) ℝ) :
    density_matrix C 0 = 0 := by
  ext mu nu
  simp [density_matrix]

lemma scf_step_F {n : ℕ} (p : SCFParams n) (D : Matrix (Fin n) (Fin n) ℝ) :
    (scf_step p D).F = p.T + p.V + build_G_matrix D p.ERIs := rfl

lemma scf_step_C {n : ℕ} (p : SCFParams n) (D : Matrix (Fin n) (Fin n) ℝ) :
    (scf_step p D).C = orthogonalization_X p.eigh p.S *
      (p.eigh ((orthogonalization_X p.eigh p.S)ᵀ * (scf_step p D).F *
        orthogonalization_X p.eigh p.S)).2 := rfl

lemma scf_step_epsilon {n : ℕ} (p : SCFParams n) (D : Matrix (Fin n) (Fin n) ℝ) :
    (scf_step p D).epsilon = (p.eigh ((orthogonalization_X p.eigh p.S)ᵀ *
      (scf_step p D).F * orthogonalization_X p.eigh p.S)).1 := rfl

lemma scf_step_D_new {n : ℕ} (p : SCFParams n) (D : Matrix (Fin n) (Fin n) ℝ) :
    (scf_step p D).D_new = density_matrix (scf_step p D).C (p.num_electrons / 2) := rfl

lemma scf_step_E_total {n : ℕ} (p : SCFParams n) (D : Matrix (Fin n) (Fin n) ℝ) :
    (scf_step p D).E_total =
      0.5 * Matrix.trace ((scf_step p D).D_new * (p.T + p.V + (scf_step p D).F)) +
        p.E_nuc := rfl

lemma build_V_factor (bfs : List BasisFunction) (atoms : List Atom)
    (i j : Fin bfs.length) :
    build_V_nuc_matrix bfs atoms i j =
      ∑ k : Fin atoms.length,
        -(1 : ℝ) * contracted_attraction (bfs.get i) (bfs.get j) ((atoms.get k).coords) := by
  unfold build_V_nuc_matrix contracted_attraction contract_V_core
  rw [Matrix.of_apply]
  refine Finset.sum_congr rfl fun k _ => ?_
  rw [Finset.mul_sum]
  refine Finset.sum_congr rfl fun a _ => ?_
  rw [Finset.mul_sum]
  exact Finset.sum_congr rfl fun b _ => by ring

/-- C2: for every list of basis functions, the tensor built by
`build_ERI_tensor` satisfies all 8 index-permutation symmetries of chemist's
notation, `(ij|kl) = (ji|kl) = (ij|lk) = (ji|lk) = (kl|ij) = (lk|ij) =
(kl|ji) = (lk|ji)` — proved as exact equalities of the real-number model,
which implies the claim's "within numerical tolerance". -/
theorem C2_eri_eightfold_symmetry (bfs : List BasisFunction)
    (i j k l : Fin bfs.length) :
    build_ERI_tensor bfs i j k l = build_ERI_tensor bfs j i k l ∧
    build_ERI_tensor bfs i j k l = build_ERI_tensor bfs i j l k ∧
    build_ERI_tensor bfs i j k l = build_ERI_tensor bfs j i l k ∧
    build_ERI_tensor bfs i j k l = build_ERI_tensor bfs k l i j ∧
    build_ERI_tensor bfs i j k l = build_ERI_tensor bfs l k i j ∧
    build_ERI_tensor bfs i j k l = build_ERI_tensor bfs k l j i ∧
    build_ERI_tensor bfs i j k l = build_ERI_tensor bfs l k j i := by
  refine ⟨eri_tensor_swap12 bfs i j k l, eri_tensor_swap34 bfs i j k l, ?_,
    eri_tensor_swap_pairs bfs i j k l, ?_, ?_, ?_⟩
  · rw [eri_tensor_swap12 bfs i j k l, eri_tensor_swap34 bfs j i k l]
  · rw [eri_tensor_swap_pairs bfs i j k l, eri_tensor_swap12 bfs k l i j]
  · rw [eri_tensor_swap_pairs bfs i j k l, eri_tensor_swap34 bfs k l i j]
  · rw [eri_tensor_swap_pairs bfs i j k l, eri_tensor_swap12 bfs k l i j,
      eri_tensor_swap34 bfs l k i j]

/-- C6: `build_G_matrix` computes
`G[mu,nu] = sum_{lam,sig} D[lam,sig]*(ERI[mu,nu,lam,sig] - 0.5*ERI[mu,lam,nu,sig])`
for every density matrix and ERI tensor of matching dimension, and the Fock
matrix used by the SCF iteration is `F = T + V + G`. -/
theorem C6_G_formula_and_fock (n : ℕ) (D : Matrix (Fin n) (Fin n) ℝ)
    (ERIs : Fin n → Fin n → Fin n → Fin n → ℝ) (p : SCFParams n) (mu nu : Fin n) :
    build_G_matrix D ERIs mu nu =
      (∑ lam, ∑ sig, D lam sig * (ERIs mu nu lam sig - 0.5 * ERIs mu lam nu sig)) ∧
    (scf_step p D).F = p.T + p.V + build_G_matrix D p.ERIs :=
  ⟨rfl, rfl⟩

/-- C7: the matrices S, T, V produced by the integral builders, the
two-electron matrix G (for a symmetric density), the Fock matrix
F = T + V + G used by the solver, and every density update
`D_new = 2 C_occ C_occ^T` are symmetric — proved as exact equalities. -/
theorem C7_matrices_symmetric (bfs : List BasisFunction) (atoms : List Atom)
    (D : Matrix (Fin bfs.length) (Fin bfs.length) ℝ) (hD : ∀ i j, D i j = D j i)
    (C : Matrix (Fin bfs.length) (Fin bfs.length) ℝ) (num_occ : ℕ)
    (i j : Fin bfs.length) :
    (build_S_and_T_matrices bfs).1 i j = (build_S_and_T_matrices bfs).1 j i ∧
    (build_S_and_T_matrices bfs).2 i j = (build_S_and_T_matrices bfs).2 j i ∧
    build_V_nuc_matrix bfs atoms i j = build_V_nuc_matrix bfs atoms j i ∧
    build_G_matrix D (build_ERI_tensor bfs) i j =
      build_G_matrix D (build_ERI_tensor bfs) j i ∧
    ((build_S_and_T_matrices bfs).2 + build_V_nuc_matrix bfs atoms +
        build_G_matrix D (build_ERI_tensor bfs)) i j =
      ((build_S_and_T_matrices bfs).2 + build_V_nuc_matrix bfs atoms +
        build_G_matrix D (build_ERI_tensor bfs)) j i ∧
    density_matrix C num_occ i j = density_matrix C num_occ j i := by
  refine ⟨build_S_symm bfs i j, build_T_symm bfs i j, build_V_symm bfs atoms i j,
    build_G_symm bfs D hD i j, ?_, density_matrix_symm C num_occ i j⟩
  simp only [Matrix.add_apply]
  rw [build_T_symm bfs i j, build_V_symm bfs atoms i j, build_G_symm bfs D hD i j]

/-- Witness for C7 at a concrete input: the symmetric (zero) density on the
singleton basis `[bf1]`, confirming the G-matrix symmetry conclusion. -/
theorem C7_witness :
    build_G_matrix (0 : Matrix (Fin [bf1].length) (Fin [bf1].length) ℝ)
        (build_ERI_tensor [bf1]) ⟨0, by decide⟩ ⟨0, by decide⟩ =
      build_G_matrix 0 (build_ERI_tensor [bf1]) ⟨0, by decide⟩ ⟨0, by decide⟩ :=
  (C7_matrices_symmetric [bf1] [atomH] 0 (fun _ _ => rfl) 0 1
    ⟨0, by decide⟩ ⟨0, by decide⟩).2.2.2.1

/-- C8: the primitive overlap of a normalized Gaussian with itself is exactly
1 for every exponent `alpha > 0` and center `R` (hence within 1e-10). -/
theorem C8_self_normalization (α : ℝ) (R : Vec3) (h : 0 < α) :
    compute_S_primitive α α R R = 1 :=
  compute_S_primitive_self h R

/-- Witness for C8 at the concrete input `alpha = 1`, `R = 0`. -/
theorem C8_witness : (0 : ℝ) < 1 ∧ compute_S_primitive 1 1 zero3 zero3 = 1 :=
  ⟨by norm_num, C8_self_normalization 1 zero3 (by norm_num)⟩

/-- C10: the previous-energy accumulator starts at 0.0 (`run_scf`), so a run
whose first-iteration total energy has absolute value below the tolerance
returns `converged = true` after exactly one iteration. -/
theorem C10_first_iteration_convergence {n : ℕ} (p : SCFParams n)
    (h1 : 0 < p.max_iter) (h : |(scf_step p 0).E_total| < p.tol) :
    (run_scf p).converged = true ∧ (run_scf p).iterations = 1 := by
  obtain ⟨m, hm⟩ : ∃ m, p.max_iter = m + 1 := ⟨p.max_iter - 1, by omega⟩
  unfold run_scf
  rw [hm, scf_go_succ, if_pos (by simpa using h)]
  exact ⟨rfl, rfl⟩

/-- Witness for C10: the degenerate empty-basis run `p_conv` has
first-iteration energy 0, below the 1e-6 tolerance, and converges after
exactly one iteration. -/
theorem C10_witness :
    0 < p_conv.max_iter ∧ |(scf_step p_conv 0).E_total| < p_conv.tol ∧
    (run_scf p_conv).converged = true ∧ (run_scf p_conv).iterations = 1 := by
  have h1 : 0 < p_conv.max_iter := by norm_num [p_conv]
  have hE : (scf_step p_conv 0).E_total = 0 := by
    rw [scf_step_E_total]
    simp [Matrix.trace, p_conv]
  have h2 : |(scf_step p_conv 0).E_total| < p_conv.tol := by
    rw [hE]
    norm_num [p_conv]
  exact ⟨h1, h2, (C10_first_iteration_convergence p_conv h1 h2).1,
    (C10_first_iteration_convergence p_conv h1 h2).2⟩

/-- C3 (amended): a run that exhausts `max_iter` iterations without the
energy change falling below the tolerance terminates normally (the solver is
a total function — the source raises nothing after the loop) and returns
`converged = false` together with the last computed total energy, orbital
energies, the iteration count, and the full energy history; the last computed
density stays in the loop state (`D_last`) but is not part of the returned
dict (`main_result`). -/
theorem C3_max_iter_result {n : ℕ} (p : SCFParams n) (h1 : 0 < p.max_iter)
    (h : (run_scf p).converged = false) :
    (run_scf p).iterations = p.max_iter ∧
    (run_scf p).E_total = E_from p 0 (p.max_iter - 1) ∧
    (run_scf p).epsilon = eps_from p 0 (p.max_iter - 1) ∧
    (run_scf p).history = (List.range p.max_iter).map (E_from p 0) ∧
    (run_scf p).D_last = D_from p 0 p.max_iter ∧
    main_result p = ⟨false, E_from p 0 (p.max_iter - 1), p.max_iter,
      eps_from p 0 (p.max_iter - 1), p.S, (List.range p.max_iter).map (E_from p 0)⟩ := by
  have hrun : run_scf p =
      ⟨false, E_from p 0 (p.max_iter - 1), 0 + p.max_iter,
        eps_from p 0 (p.max_iter - 1),
        [] ++ (List.range p.max_iter).map (E_from p 0), D_from p 0 p.max_iter⟩ :=
    scf_go_not_converged p p.max_iter h1 0 0 0 [] (fun _ => 0) 0 0 h
  simp only [Nat.zero_add, List.nil_append] at hrun
  refine ⟨by rw [hrun], by rw [hrun], by rw [hrun], by rw [hrun], by rw [hrun], ?_⟩
  unfold main_result
  rw [hrun]

/-- Witness for C3 at a concrete input: the empty-basis run `p_nc` with
`E_nuc = 1` and one iteration does not converge and uses all its
iterations. -/
theorem C3_witness :
    0 < p_nc.max_iter ∧ (run_scf p_nc).converged = false ∧
    (run_scf p_nc).iterations = p_nc.max_iter := by
  have h1 : 0 < p_nc.max_iter := by norm_num [p_nc]
  have hE : (scf_step p_nc (0 : Matrix (Fin 0) (Fin 0) ℝ)).E_total = 1 := by
    rw [scf_step_E_total]
    simp [Matrix.trace, p_nc]
  have hc : (run_scf p_nc).converged = false := by
    unfold run_scf
    rw [show p_nc.max_iter = 0 + 1 from rfl, scf_go_succ, if_neg]
    · rfl
    · rw [hE]
      norm_num [p_nc]
  exact ⟨h1, hc, (C3_max_iter_result p_nc h1 hc).1⟩

/-- C4 counterexample: with an eigensolver output containing a zero overlap
eigenvalue (at or below the positive threshold 1e-8), the code still returns
a transform: `X = U diag(s**-0.5) Uᵀ` is built unconditionally (run_HF.py
lines 133-135 perform no eigenvalue check and the program defines no
`LinearDependenceError`); in the real-number model `0^(-0.5) = 0` so X is
the zero matrix (numpy would produce `inf` entries with a warning — also not
an exception). The spec-modelled `from_overlap_spec` rejects the same
input. -/
theorem C4_counterexample :
    (eigh_zero 1 (1 : Matrix (Fin 1) (Fin 1) ℝ)).1 0 ≤ 1e-8 ∧
    orthogonalization_X (eigh_zero 1) (1 : Matrix (Fin 1) (Fin 1) ℝ) = 0 ∧
    from_overlap_spec 1e-8 (eigh_zero 1) (1 : Matrix (Fin 1) (Fin 1) ℝ) =
      Except.error LinearDependenceError.overlapNearSingular := by
  refine ⟨by norm_num [eigh_zero], ?_, ?_⟩
  · unfold orthogonalization_X eigh_zero
    have hz : ((0 : ℝ) ^ (-(0.5) : ℝ)) = 0 :=
      Real.zero_rpow (by norm_num)
    simp [hz]
  · unfold from_overlap_spec
    rw [if_neg]
    push_neg
    exact ⟨0, by norm_num [eigh_zero]⟩

/-- C4 (amended): the code performs no linear-dependence check — it always
returns the transform built from whatever the eigensolver produced; on the
good domain (every eigenvalue above the threshold) the spec's checked
`from_overlap` agrees exactly with the code's `orthogonalization_X`. -/
theorem C4_no_check_agreement {n : ℕ} (threshold : ℝ)
    (eigh : Matrix (Fin n) (Fin n) ℝ → (Fin n → ℝ) × Matrix (Fin n) (Fin n) ℝ)
    (S : Matrix (Fin n) (Fin n) ℝ) (h : ∀ i, threshold < (eigh S).1 i) :
    from_overlap_spec threshold eigh S = Except.ok (orthogonalization_X eigh S) := by
  unfold from_overlap_spec
  rw [if_pos h]

/-- Witness for C4 (amended) at a concrete input: unit eigenvalues are above
the 1e-8 threshold and the spec transform equals the code transform. -/
theorem C4_witness :
    (∀ i, (1e-8 : ℝ) < (eigh_one 1 (1 : Matrix (Fin 1) (Fin 1) ℝ)).1 i) ∧
    from_overlap_spec 1e-8 (eigh_one 1) (1 : Matrix (Fin 1) (Fin 1) ℝ) =
      Except.ok (orthogonalization_X (eigh_one 1) 1) := by
  have h : ∀ i, (1e-8 : ℝ) < (eigh_one 1 (1 : Matrix (Fin 1) (Fin 1) ℝ)).1 i :=
    fun i => by norm_num [eigh_one]
  exact ⟨h, C4_no_check_agreement 1e-8 (eigh_one 1) 1 h⟩

/-- C5 counterexample: the basis function `bfX` has two exponents but one
coefficient (mismatched lengths), yet `build_S_and_T_matrices` raises
nothing — the program defines no `InvalidBasisError` and performs no
validation; `zip` silently truncates to the single pair `(1, 1)` and the
overlap entry evaluates to the self-overlap 1 of the surviving primitive. -/
theorem C5_counterexample :
    bfX.exponents.length ≠ bfX.coefficients.length ∧
    (build_S_and_T_matrices [bfX]).1 ⟨0, by decide⟩ ⟨0, by decide⟩ = 1 := by
  constructor
  · decide
  · show contract_S_core (prim_pairs bfX) (prim_pairs bfX) bfX.center bfX.center = 1
    have hpp : prim_pairs bfX = [(1, 1)] := rfl
    rw [hpp]
    unfold contract_S_core
    show (∑ a : Fin 1, ∑ b : Fin 1,
        (([((1 : ℝ), (1 : ℝ))]).get a).2 * (([((1 : ℝ), (1 : ℝ))]).get b).2 *
          compute_S_primitive (([((1 : ℝ), (1 : ℝ))]).get a).1
            (([((1 : ℝ), (1 : ℝ))]).get b).1 bfX.center bfX.center) = 1
    rw [Fin.sum_univ_one, Fin.sum_univ_one]
    show (1 : ℝ) * 1 * compute_S_primitive 1 1 bfX.center bfX.center = 1
    rw [one_mul, one_mul, compute_S_primitive_self (by norm_num)]

/-- C5 (amended): the integral builders validate nothing and never raise:
they consume a basis function only through `zip(exponents, coefficients)`,
which silently truncates to the shorter list, so exponents beyond the
coefficient list are ignored and the integrals are computed for every
input. -/
theorem C5_truncation (c : Vec3) (es extra cs : List ℝ) (h : cs.length ≤ es.length) :
    prim_pairs ⟨c, es ++ extra, cs⟩ = prim_pairs ⟨c, es, cs⟩ ∧
    build_S_and_T_matrices [⟨c, es ++ extra, cs⟩] = build_S_and_T_matrices [⟨c, es, cs⟩] ∧
    build_ERI_tensor [⟨c, es ++ extra, cs⟩] = build_ERI_tensor [⟨c, es, cs⟩] ∧
    ∀ atoms : List Atom,
      build_V_nuc_matrix [⟨c, es ++ extra, cs⟩] atoms =
        build_V_nuc_matrix [⟨c, es, cs⟩] atoms := by
  have hz : prim_pairs ⟨c, es ++ extra, cs⟩ = prim_pairs ⟨c, es, cs⟩ :=
    zip_append_of_le es extra cs h
  refine ⟨hz, ?_, ?_, ?_⟩
  · unfold build_S_and_T_matrices
    refine Prod.ext ?_ ?_ <;> ext i j <;> rw [Fin.eq_zero i, Fin.eq_zero j]
    · show contract_S_core (prim_pairs ⟨c, es ++ extra, cs⟩)
          (prim_pairs ⟨c, es ++ extra, cs⟩) c c =
        contract_S_core (prim_pairs ⟨c, es, cs⟩) (prim_pairs ⟨c, es, cs⟩) c c
      rw [hz]
    · show contract_T_core (prim_pairs ⟨c, es ++ extra, cs⟩)
          (prim_pairs ⟨c, es ++ extra, cs⟩) c c =
        contract_T_core (prim_pairs ⟨c, es, cs⟩) (prim_pairs ⟨c, es, cs⟩) c c
      rw [hz]
  · funext i j k l
    rw [Fin.eq_zero i, Fin.eq_zero j, Fin.eq_zero k, Fin.eq_zero l]
    show contract_ERI_core (prim_pairs ⟨c, es ++ extra, cs⟩)
        (prim_pairs ⟨c, es ++ extra, cs⟩) (prim_pairs ⟨c, es ++ extra, cs⟩)
        (prim_pairs ⟨c, es ++ extra, cs⟩) c c c c =
      contract_ERI_core (prim_pairs ⟨c, es, cs⟩) (prim_pairs ⟨c, es, cs⟩)
        (prim_pairs ⟨c, es, cs⟩) (prim_pairs ⟨c, es, cs⟩) c c c c
    rw [hz]
  · intro atoms
    ext i j
    rw [Fin.eq_zero i, Fin.eq_zero j]
    show (∑ k : Fin atoms.length,
        contract_V_core (prim_pairs ⟨c, es ++ extra, cs⟩)
          (prim_pairs ⟨c, es ++ extra, cs⟩) c c (atoms.get k).coords) =
      ∑ k : Fin atoms.length,
        contract_V_core (prim_pairs ⟨c, es, cs⟩) (prim_pairs ⟨c, es, cs⟩) c c
          (atoms.get k).coords
    rw [hz]

/-- Witness for C5 (amended) at a concrete input: one coefficient against one
exponent plus one extra exponent. -/
theorem C5_witness :
    ([1] : List ℝ).length ≤ ([1] : List ℝ).length ∧
    prim_pairs ⟨zero3, [1] ++ [2], [1]⟩ = prim_pairs ⟨zero3, [1], [1]⟩ :=
  ⟨by decide, (C5_truncation zero3 [1] [2] [1] (by decide)).1⟩

/-- C9 (amended): every entry of `build_V_nuc_matrix` equals the sum over
the atoms of `-1.0` times the contracted attraction integral — the nuclear
charge is hardcoded to `Z = 1.0` and the atom's element is never consulted;
for lists of hydrogen atoms this coincides with `-Z_atom` times the
contracted integral. -/
theorem C9_V_formula (bfs : List BasisFunction) (atoms : List Atom)
    (i j : Fin bfs.length) (hH : ∀ a ∈ atoms, a.element = "H") :
    build_V_nuc_matrix bfs atoms i j =
      (∑ k : Fin atoms.length,
        -(1 : ℝ) * contracted_attraction (bfs.get i) (bfs.get j)
          ((atoms.get k).coords)) ∧
    build_V_nuc_matrix bfs atoms i j =
      ∑ k : Fin atoms.length,
        -nuclear_charge (atoms.get k) *
          contracted_attraction (bfs.get i) (bfs.get j) ((atoms.get k).coords) := by
  refine ⟨build_V_factor bfs atoms i j, (build_V_factor bfs atoms i j).trans ?_⟩
  refine Finset.sum_congr rfl fun k _ => ?_
  have hZ : nuclear_charge (atoms.get k) = 1 := by
    unfold nuclear_charge
    rw [if_pos (hH _ (List.get_mem atoms k.1 k.2))]
  rw [hZ]

/-- Witness for C9 (amended) at a concrete input: one hydrogen atom and one
basis function. -/
theorem C9_witness :
    (∀ a ∈ [atomH], a.element = "H") ∧
    build_V_nuc_matrix [bf1] [atomH] ⟨0, by decide⟩ ⟨0, by decide⟩ =
      ∑ k : Fin ([atomH].length),
        -nuclear_charge ([atomH].get k) *
          contracted_attraction ([bf1].get ⟨0, by decide⟩) ([bf1].get ⟨0, by decide⟩)
            (([atomH].get k).coords) := by
  have hH : ∀ a ∈ [atomH], a.element = "H" := by
    intro a ha
    rw [List.mem_singleton] at ha
    rw [ha]
    rfl
  exact ⟨hH, (C9_V_formula [bf1] [atomH] ⟨0, by decide⟩ ⟨0, by decide⟩ hH).2⟩

/-- The contracted attraction integral of `bf1` with itself at a coincident
nucleus is strictly positive (the `PC_sq < 1e-10` branch evaluates to
`2*pi/zeta`, a positive value times positive normalisation factors). -/
lemma contracted_attraction_bf1_pos :
    0 < contracted_attraction bf1 bf1 zero3 := by
  have hg : gauss_center 1 1 zero3 zero3 = zero3 := by
    funext c
    simp [gauss_center, zero3]
  have hVpos : 0 < compute_V_nuc_primitive 1 1 zero3 zero3 zero3 := by
    unfold compute_V_nuc_primitive
    rw [hg, vec_dist_sq_self, if_pos (by norm_num : (0 : ℝ) < 1e-10)]
    unfold norm_s
    have hπ := Real.pi_pos
    positivity
  have hco : contracted_attraction bf1 bf1 zero3 =
      compute_V_nuc_primitive 1 1 zero3 zero3 zero3 := by
    unfold contracted_attraction
    show (∑ a : Fin 1, ∑ b : Fin 1,
        (([((1 : ℝ), (1 : ℝ))]).get a).2 * (([((1 : ℝ), (1 : ℝ))]).get b).2 *
          compute_V_nuc_primitive (([((1 : ℝ), (1 : ℝ))]).get a).1
            (([((1 : ℝ), (1 : ℝ))]).get b).1 bf1.center bf1.center zero3) =
      compute_V_nuc_primitive 1 1 zero3 zero3 zero3
    rw [Fin.sum_univ_one, Fin.sum_univ_one]
    show (1 : ℝ) * 1 * compute_V_nuc_primitive 1 1 zero3 zero3 zero3 =
      compute_V_nuc_primitive 1 1 zero3 zero3 zero3
    rw [one_mul, one_mul]
  rw [hco]
  exact hVpos

/-- C9 counterexample: for a helium atom (spec-modelled nuclear charge 2)
the claim's formula `V[i,j] = sum_atoms -Z_atom * contracted_integral` fails:
the code hardcodes `Z = 1.0`, so the entry equals `-contracted`, while the
claim requires `-2 * contracted`; the contracted integral is strictly
positive, so the two differ. -/
theorem C9_counterexample :
    build_V_nuc_matrix [bf1] [atomHe] ⟨0, by decide⟩ ⟨0, by decide⟩ ≠
      ∑ k : Fin ([atomHe].length),
        -nuclear_charge ([atomHe].get k) *
          contracted_attraction ([bf1].get ⟨0, by decide⟩) ([bf1].get ⟨0, by decide⟩)
            (([atomHe].get k).coords) := by
  have hL : build_V_nuc_matrix [bf1] [atomHe] ⟨0, by decide⟩ ⟨0, by decide⟩ =
      -(1 : ℝ) * contracted_attraction bf1 bf1 zero3 := by
    rw [build_V_factor [bf1] [atomHe] ⟨0, by decide⟩ ⟨0, by decide⟩]
    show (∑ k : Fin 1,
        -(1 : ℝ) * contracted_attraction bf1 bf1 (([atomHe].get k).coords)) =
      -(1 : ℝ) * contracted_attraction bf1 bf1 zero3
    rw [Fin.sum_univ_one]
    rfl
  have hZ : nuclear_charge atomHe = 2 := by
    unfold nuclear_charge
    rw [if_neg (by decide), if_pos (show atomHe.element = "He" from rfl)]
  have hR : (∑ k : Fin ([atomHe].length),
        -nuclear_charge ([atomHe].get k) *
          contracted_attraction ([bf1].get ⟨0, by decide⟩) ([bf1].get ⟨0, by decide⟩)
            (([atomHe].get k).coords)) =
      -(2 : ℝ) * contracted_attraction bf1 bf1 zero3 := by
    show (∑ k : Fin 1,
        -nuclear_charge atomHe * contracted_attraction bf1 bf1 (([atomHe].get k).coords)) =
      -(2 : ℝ) * contracted_attraction bf1 bf1 zero3
    rw [Fin.sum_univ_one, hZ]
    rfl
  rw [hL, hR]
  have hpos := contracted_attraction_bf1_pos
  intro h
  nlinarith

/-- C1 (the code evaluated at the failing input): with the odd electron count
`num_electrons = 1` (a single hydrogen atom) the solver does not fail — the
source only writes a log message ("cannot proceed") and then proceeds: the
iteration body builds G, F and X, takes `num_occ = 1 // 2 = 0`, builds the
zero density from the empty occupation, and the run completes normally
(here it even converges in one iteration). No `OddElectronCountError` exists
anywhere in the program. -/
theorem C1_odd_electron_run_completes :
    p_odd.num_electrons % 2 = 1 ∧
    run_scf p_odd = ⟨true, 0, 1, fun _ => 0, [0], 0⟩ ∧
    (scf_step p_odd 0).D_new = 0 := by
  have hocc : p_odd.num_electrons / 2 = 0 := by decide
  have hDnew : (scf_step p_odd (0 : Matrix (Fin 1) (Fin 1) ℝ)).D_new = 0 := by
    rw [scf_step_D_new, hocc, density_matrix_zero_occ]
  have hE : (scf_step p_odd (0 : Matrix (Fin 1) (Fin 1) ℝ)).E_total = 0 := by
    rw [scf_step_E_total, hDnew]
    show 0.5 * Matrix.trace ((0 : Matrix (Fin 1) (Fin 1) ℝ) *
        (p_odd.T + p_odd.V + (scf_step p_odd 0).F)) + (0 : ℝ) = 0
    rw [Matrix.zero_mul, Matrix.trace_zero]
    norm_num
  have heps : (scf_step p_odd (0 : Matrix (Fin 1) (Fin 1) ℝ)).epsilon = fun _ => 0 := rfl
  refine ⟨by decide, ?_, hDnew⟩
  unfold run_scf
  rw [show p_odd.max_iter = 49 + 1 from rfl, scf_go_succ, hE, heps, hDnew]
  have hcond : |(0 : ℝ) - 0| < p_odd.tol := by
    norm_num [p_odd]
  rw [if_pos hcond]
  rfl

lemma matrix_zero_ne_one : (0 : Matrix (Fin 2) (Fin 2) ℝ) ≠ 1 := by
  intro h
  have h2 := congrFun (congrFun h 0) 0
  simp [Matrix.one_apply] at h2

lemma orthogonalization_X_resA :
    orthogonalization_X p_resA.eigh p_resA.S = 1 := by
  show orthogonalization_X eigh_resA 1 = 1
  unfold orthogonalization_X eigh_resA
  rw [if_pos rfl]
  simp [Real.one_rpow]

lemma orthogonalization_X_resB :
    orthogonalization_X p_resB.eigh p_resB.S = 1 := by
  show orthogonalization_X eigh_resB 1 = 1
  unfold orthogonalization_X eigh_resB
  rw [if_pos rfl]
  simp [Real.one_rpow]

lemma scf_step_F_resA : (scf_step p_resA (0 : Matrix (Fin 2) (Fin 2) ℝ)).F = 0 := by
  rw [scf_step_F]
  show (0 : Matrix (Fin 2) (Fin 2) ℝ) + 0 + build_G_matrix 0 (fun _ _ _ _ => 0) = 0
  rw [build_G_zero]
  simp

lemma scf_step_F_resB : (scf_step p_resB (0 : Matrix (Fin 2) (Fin 2) ℝ)).F = 0 := by
  rw [scf_step_F]
  show (0 : Matrix (Fin 2) (Fin 2) ℝ) + 0 + build_G_matrix 0 (fun _ _ _ _ => 0) = 0
  rw [build_G_zero]
  simp

lemma fprime_resA : (orthogonalization_X p_resA.eigh p_resA.S)ᵀ *
    (scf_step p_resA (0 : Matrix (Fin 2) (Fin 2) ℝ)).F *
    orthogonalization_X p_resA.eigh p_resA.S = 0 := by
  rw [orthogonalization_X_resA, scf_step_F_resA]
  simp

lemma fprime_resB : (orthogonalization_X p_resB.eigh p_resB.S)ᵀ *
    (scf_step p_resB (0 : Matrix (Fin 2) (Fin 2) ℝ)).F *
    orthogonalization_X p_resB.eigh p_resB.S = 0 := by
  rw [orthogonalization_X_resB, scf_step_F_resB]
  simp

lemma scf_step_C_resA : (scf_step p_resA (0 : Matrix (Fin 2) (Fin 2) ℝ)).C = 1 := by
  rw [scf_step_C, fprime_resA, orthogonalization_X_resA]
  show (1 : Matrix (Fin 2) (Fin 2) ℝ) * (eigh_resA 0).2 = 1
  unfold eigh_resA
  rw [if_neg matrix_zero_ne_one]
  simp

lemma scf_step_C_resB : (scf_step p_resB (0 : Matrix (Fin 2) (Fin 2) ℝ)).C = swap2 := by
  rw [scf_step_C, fprime_resB, orthogonalization_X_resB]
  show (1 : Matrix (Fin 2) (Fin 2) ℝ) * (eigh_resB 0).2 = swap2
  unfold eigh_resB
  rw [if_neg matrix_zero_ne_one]
  simp

lemma scf_step_eps_resA :
    (scf_step p_resA (0 : Matrix (Fin 2) (Fin 2) ℝ)).epsilon = fun _ => 0 := by
  rw [scf_step_epsilon, fprime_resA]
  show (eigh_resA 0).1 = fun _ => 0
  unfold eigh_resA
  rw [if_neg matrix_zero_ne_one]

lemma scf_step_eps_resB :
    (scf_step p_resB (0 : Matrix (Fin 2) (Fin 2) ℝ)).epsilon = fun _ => 0 := by
  rw [scf_step_epsilon, fprime_resB]
  show (eigh_resB 0).1 = fun _ => 0
  unfold eigh_resB
  rw [if_neg matrix_zero_ne_one]

lemma scf_step_D_resA :
    (scf_step p_resA (0 : Matrix (Fin 2) (Fin 2) ℝ)).D_new = density_matrix 1 1 := by
  rw [scf_step_D_new, scf_step_C_resA]
  rfl

lemma scf_step_D_resB :
    (scf_step p_resB (0 : Matrix (Fin 2) (Fin 2) ℝ)).D_new = density_matrix swap2 1 := by
  rw [scf_step_D_new, scf_step_C_resB]
  rfl

lemma scf_step_E_resA : (scf_step p_resA (0 : Matrix (Fin 2) (Fin 2) ℝ)).E_total = 0 := by
  rw [scf_step_E_total, scf_step_F_resA]
  show 0.5 * Matrix.trace ((scf_step p_resA 0).D_new *
      ((0 : Matrix (Fin 2) (Fin 2) ℝ) + 0 + 0)) + (0 : ℝ) = 0
  simp

lemma scf_step_E_resB : (scf_step p_resB (0 : Matrix (Fin 2) (Fin 2) ℝ)).E_total = 0 := by
  rw [scf_step_E_total, scf_step_F_resB]
  show 0.5 * Matrix.trace ((scf_step p_resB 0).D_new *
      ((0 : Matrix (Fin 2) (Fin 2) ℝ) + 0 + 0)) + (0 : ℝ) = 0
  simp

lemma run_scf_resA : run_scf p_resA = ⟨false, 0, 1, fun _ => 0, [0], density_matrix 1 1⟩ := by
  unfold run_scf
  rw [show p_resA.max_iter = 0 + 1 from rfl, scf_go_succ, scf_step_E_resA,
    scf_step_eps_resA, scf_step_D_resA]
  have hcond : ¬|(0 : ℝ) - 0| < p_resA.tol := by
    norm_num [p_resA]
  rw [if_neg hcond]
  rfl

lemma run_scf_resB : run_scf p_resB = ⟨false, 0, 1, fun _ => 0, [0], density_matrix swap2 1⟩ := by
  unfold run_scf
  rw [show p_resB.max_iter = 0 + 1 from rfl, scf_go_succ, scf_step_E_resB,
    scf_step_eps_resB, scf_step_D_resB]
  have hcond : ¬|(0 : ℝ) - 0| < p_resB.tol := by
    norm_num [p_resB]
  rw [if_neg hcond]
  rfl

lemma density_resA_ne_resB : density_matrix (1 : Matrix (Fin 2) (Fin 2) ℝ) 1 ≠
    density_matrix swap2 1 := by
  have hfilter : Finset.univ.filter (fun i : Fin 2 => (i : ℕ) < 1) = {0} := by decide
  have e1 : density_matrix (1 : Matrix (Fin 2) (Fin 2) ℝ) 1 0 0 = 2 := by
    unfold density_matrix
    rw [Matrix.of_apply, hfilter, Finset.sum_singleton]
    simp [Matrix.one_apply]
  have e2 : density_matrix swap2 1 0 0 = 0 := by
    unfold density_matrix
    rw [Matrix.of_apply, hfilter, Finset.sum_singleton]
    have hs : swap2 0 0 = 0 := rfl
    rw [hs]
    ring
  intro h
  have h00 := congrFun (congrFun h 0) 0
  rw [e1, e2] at h00
  norm_num at h00

/-- C3 counterexample: two runs that both exhaust their iteration budget
without converging (`converged = false`) produce identical returned results
(`main_result`, the dict of run_HF.main lines 194-202) while their last
computed densities differ — so the returned result cannot be "carrying the
last computed density": the dict simply has no density field. -/
theorem C3_counterexample :
    (run_scf p_resA).converged = false ∧ (run_scf p_resB).converged = false ∧
    main_result p_resA = main_result p_resB ∧
    (run_scf p_resA).D_last ≠ (run_scf p_resB).D_last := by
  refine ⟨by rw [run_scf_resA], by rw [run_scf_resB], ?_, ?_⟩
  · unfold main_result
    rw [run_scf_resA, run_scf_resB]
    rfl
  · rw [run_scf_resA, run_scf_resB]
    exact density_resA_ne_resB

end HF
